import Mathlib

/-!
Verification of the Deterministic Replay Buffer of `quantum-intuition`
(`src/pages/LessonView.tsx` and `src/simulations/shared/TimelineScrubber.tsx`).

The embedding follows the source closely:

* `Particle`, `Snapshot`, `HISTORY_MAX` mirror the types and constant of
  `LessonView.tsx`.
* Coordinates and velocities are modelled as rationals; every operation of
  the replay core is a pure function of them, so determinism statements
  transfer verbatim.
* `SimState` packages the closure variables of the component
  (`particles`, `history`, `currentIndex`, `scrubbing`) together with the
  `playing` signal.
* A small explicit heap (`Heap`, `copyObjects`) models JavaScript object
  identity for the aliasing claims about `snapshot()` and
  `restoreSnapshot` (both are `map`s that build fresh objects carrying
  copies of all four fields).
-/

/-- A moving body: `interface Particle { x; y; vx; vy }`. -/
structure Particle where
  x : ℚ
  y : ℚ
  vx : ℚ
  vy : ℚ
deriving DecidableEq

instance : Inhabited Particle := ⟨⟨0, 0, 0, 0⟩⟩

/-- `type Snapshot = Particle[]`. -/
abbrev Snapshot := List Particle

/-- Frames of history to buffer: `const HISTORY_MAX = 300`. -/
def HISTORY_MAX : Nat := 300

/-- p5's `constrain(n, low, high) = Math.max(Math.min(n, high), low)`. -/
def constrain (n low high : ℚ) : ℚ := max (min n high) low

/-- One physics step of the `draw` loop for a single particle
(`LessonView.tsx` lines 116–128): move by velocity scaled by `speed`,
then reflect the velocity and clamp the position on wall contact. -/
def stepParticle (speed width height : ℚ) (p : Particle) : Particle :=
  let x := p.x + p.vx * speed
  let y := p.y + p.vy * speed
  let px := if x < 10 ∨ width - 10 < x then (constrain x 10 (width - 10), -p.vx) else (x, p.vx)
  let py := if y < 10 ∨ height - 10 < y then (constrain y 10 (height - 10), -p.vy) else (y, p.vy)
  { x := px.1, y := py.1, vx := px.2, vy := py.2 }

/-- The physics step applied to the whole particle list (the `for` loop). -/
def stepAll (speed width height : ℚ) (ps : List Particle) : List Particle :=
  ps.map (stepParticle speed width height)

/-- `snapshot()`: `particles.map (p => ({ x: p.x, y: p.y, vx: p.vx, vy: p.vy }))`
viewed at the value level. -/
def snapshot (particles : List Particle) : Snapshot :=
  particles.map (fun p => { x := p.x, y := p.y, vx := p.vx, vy := p.vy })

/-- `restoreSnapshot(snap)`: `particles = snap.map (p => ({...p}))`
viewed at the value level. -/
def restoreSnapshot (snap : Snapshot) : List Particle :=
  snap.map (fun p => { x := p.x, y := p.y, vx := p.vx, vy := p.vy })

/-- The buffer-level body of `pushHistory` (lines 76–79): push onto the end,
then `shift()` away the oldest entry when the length exceeds `cap`. -/
def appendSnap (cap : Nat) (hist : List Snapshot) (snap : Snapshot) : List Snapshot :=
  let h := hist ++ [snap]
  if cap < h.length then h.tail else h

/-- The closure state of the `LessonView` component: live particles, the
history buffer, the cursor, the scrubbing flag and the `playing` signal. -/
structure SimState where
  particles : List Particle
  history : List Snapshot
  currentIndex : Nat
  scrubbing : Bool
  playing : Bool
deriving DecidableEq

/-- `pushHistory()`: append the current snapshot (evicting the oldest entry
past `HISTORY_MAX`) and point the cursor at the last entry. -/
def pushHistory (s : SimState) : SimState :=
  let hist := appendSnap HISTORY_MAX s.history (snapshot s.particles)
  { s with history := hist, currentIndex := hist.length - 1 }

/-- `initParticles`: install the freshly generated particles, clear the
history and cursor, then seed the buffer with one snapshot via
`pushHistory()`. The random generation itself is a parameter `ps`. -/
def initSim (ps : List Particle) : SimState :=
  pushHistory { particles := ps, history := [], currentIndex := 0, scrubbing := false,
                playing := true }

/-- The state-relevant part of the `draw` callback: when not scrubbing,
step the physics and record a snapshot; when scrubbing, render only. -/
def draw (speed width height : ℚ) (s : SimState) : SimState :=
  if s.scrubbing then s
  else pushHistory { s with particles := stepAll speed width height s.particles }

/-- `handleScrubStart`: enter scrubbing mode. -/
def handleScrubStart (s : SimState) : SimState :=
  { s with scrubbing := true }

/-- `handleScrub(frameIndex)`: clamp the target to `[0, history.length - 1]`
(in JavaScript `length - 1` is `-1` on an empty buffer, so the clamp yields
`0` there), move the cursor, and restore the snapshot at the clamped index
when it exists (`if (history[clamped])`). -/
def handleScrub (frameIndex : Int) (s : SimState) : SimState :=
  let clamped : Int := max 0 (min frameIndex ((s.history.length : Int) - 1))
  let c : Nat := clamped.toNat
  match s.history[c]? with
  | some snap => { s with currentIndex := c, particles := restoreSnapshot snap }
  | none => { s with currentIndex := c }

/-- `handleScrubEnd`: leave scrubbing mode, truncate the buffer to
`slice(0, currentIndex + 1)`, and force `setPlaying(true)`. -/
def handleScrubEnd (s : SimState) : SimState :=
  { s with scrubbing := false,
           history := s.history.take (s.currentIndex + 1),
           playing := true }

/-- `handleReset`: empty the particles, the history and the cursor.
No reseeding snapshot is pushed here. -/
def handleReset (s : SimState) : SimState :=
  { s with particles := [], history := [], currentIndex := 0 }

/-- A run of `pushHistory` calls: before each call the live particles are
replaced by the next entry of `pss` (as the frame loop does), starting
from state `s`. -/
def pushRun (pss : List (List Particle)) (s : SimState) : SimState :=
  pss.foldl (fun st ps => pushHistory { st with particles := ps }) s

/-- The scrubber component state: the host simulation plus the
`isDragging` flag of `TimelineScrubber`. -/
structure UIState where
  sim : SimState
  isDragging : Bool
deriving DecidableEq

/-- `handleMouseMove` of `TimelineScrubber` (lines 68–72): a move event is
forwarded to `onScrub` only while dragging; otherwise it is dropped.
`frameIndex` is the already-mapped frame index of the pointer. -/
def handleMouseMove (frameIndex : Int) (u : UIState) : UIState :=
  if u.isDragging then { u with sim := handleScrub frameIndex u.sim } else u

/-!
### Heap model for aliasing claims

JavaScript objects live on a heap; `snapshot()` and `restoreSnapshot` build
fresh objects. `Heap.mem` is the store, addresses are allocation indices.
-/

/-- A heap address. -/
abbrev Addr := Nat

/-- The object store: address `a` holds `mem[a]`. -/
structure Heap where
  mem : List Particle
deriving DecidableEq

/-- Current allocation bound. -/
def Heap.size (h : Heap) : Nat := h.mem.length

/-- Dereference an address. -/
def Heap.read (h : Heap) (a : Addr) : Particle := h.mem.getD a default

/-- Mutate the object at an address (e.g. `particle.x += ...`). -/
def Heap.write (h : Heap) (a : Addr) (p : Particle) : Heap := ⟨h.mem.set a p⟩

/-- Dereference a list of addresses. -/
def Heap.readAll (h : Heap) (as : List Addr) : List Particle := as.map h.read

/-- Allocate a fresh object holding copies of all four fields of the object
at `a` (the object literal built from `p.x`, `p.y`, `p.vx`, `p.vy`, which is
also what the spread `{...p}` builds). The new object lives at `h.size`. -/
def heapExtend (h : Heap) (a : Addr) : Heap :=
  ⟨h.mem ++ [{ x := (h.read a).x, y := (h.read a).y, vx := (h.read a).vx,
               vy := (h.read a).vy }]⟩

/-- `map` over object references that allocates, for every input object, a
fresh object holding copies of all four fields. Both `snapshot()`
(`({ x: p.x, y: p.y, vx: p.vx, vy: p.vy })`) and `restoreSnapshot`
(`({...p})`) have exactly this shape. -/
def copyObjects : List Addr → Heap → List Addr × Heap
  | [], h => ([], h)
  | a :: rest, h =>
    let r := copyObjects rest (heapExtend h a)
    (h.size :: r.1, r.2)

/-- `snapshot()` at the heap level. -/
def captureHeap : List Addr → Heap → List Addr × Heap := copyObjects

/-- `restoreSnapshot` at the heap level. -/
def restoreHeap : List Addr → Heap → List Addr × Heap := copyObjects

/-!
### Concrete test values (used by witnesses, counterexamples and scenarios)
-/

/-- A labelled test particle. -/
def testP (i : ℚ) : Particle := ⟨i, 0, 0, 0⟩

/-- A labelled test snapshot. -/
def testSnap (i : ℚ) : Snapshot := [testP i]

/-- A paused, mid-history scrubbing state. -/
def s4 : SimState := ⟨[testP 0], [testSnap 1, testSnap 2, testSnap 3], 1, true, false⟩

/-- A two-entry-history state. -/
def s5 : SimState := ⟨[testP 0], [testSnap 1, testSnap 2], 0, true, true⟩

/-- A test heap with two live objects. -/
def h6 : Heap := ⟨[⟨1, 2, 3, 4⟩, ⟨5, 6, 7, 8⟩]⟩

/-- A non-dragging (Advancing) scrubber-plus-simulation state. -/
def s8a : UIState := ⟨⟨[], [testSnap 1], 0, false, true⟩, false⟩

/-- A scrubbing-mode simulation state. -/
def s8b : SimState := ⟨[], [testSnap 1], 0, true, true⟩

/-- A state with an empty history buffer. -/
def s10 : SimState := ⟨[testP 1], [], 0, false, true⟩

/-!
### Helper lemmas
-/

theorem copyParticle_eta (p : Particle) :
    ({ x := p.x, y := p.y, vx := p.vx, vy := p.vy } : Particle) = p := by
  cases p
  rfl

theorem snapshot_eq_self (ps : List Particle) : snapshot ps = ps := by
  unfold snapshot
  simp [copyParticle_eta]

theorem restoreSnapshot_eq_self (snap : Snapshot) : restoreSnapshot snap = snap := by
  unfold restoreSnapshot
  simp [copyParticle_eta]

theorem appendSnap_length (cap : Nat) (hist : List Snapshot) (snap : Snapshot) :
    (appendSnap cap hist snap).length =
      if cap < hist.length + 1 then hist.length else hist.length + 1 := by
  unfold appendSnap
  rw [apply_ite List.length]
  simp only [List.length_tail, List.length_append, List.length_cons, List.length_nil]
  split <;> omega

theorem appendSnap_length_le (cap : Nat) (hist : List Snapshot) (snap : Snapshot)
    (h : hist.length ≤ cap) : (appendSnap cap hist snap).length ≤ cap := by
  rw [appendSnap_length]
  split <;> omega

theorem appendSnap_of_lt (cap : Nat) (hist : List Snapshot) (snap : Snapshot)
    (h : hist.length < cap) : appendSnap cap hist snap = hist ++ [snap] := by
  unfold appendSnap
  simp only [List.length_append, List.length_cons, List.length_nil]
  rw [if_neg]
  omega

theorem appendSnap_of_full (cap : Nat) (hist : List Snapshot) (snap : Snapshot)
    (hone : 1 ≤ cap) (h : hist.length = cap) :
    appendSnap cap hist snap = hist.tail ++ [snap] := by
  unfold appendSnap
  simp only [List.length_append, List.length_cons, List.length_nil]
  rw [if_pos]
  · cases hist with
    | nil =>
      simp only [List.length_nil] at h
      omega
    | cons a t => simp
  · omega

theorem pushRun_length_le (pss : List (List Particle)) (s : SimState)
    (h : s.history.length ≤ HISTORY_MAX) :
    (pushRun pss s).history.length ≤ HISTORY_MAX := by
  induction pss generalizing s with
  | nil => simpa [pushRun]
  | cons ps rest ih =>
    simp only [pushRun, List.foldl_cons]
    exact ih _ (appendSnap_length_le _ _ _ h)

theorem draw_of_not_scrubbing (speed width height : ℚ) (s : SimState)
    (hs : s.scrubbing = false) :
    draw speed width height s =
      pushHistory { s with particles := stepAll speed width height s.particles } := by
  simp [draw, hs]

theorem draw_iter_spec (speed width height : ℚ) (m : Nat) (s : SimState)
    (hs : s.scrubbing = false) :
    ((draw speed width height)^[m] s).particles = (stepAll speed width height)^[m] s.particles ∧
      ((draw speed width height)^[m] s).scrubbing = false := by
  induction m generalizing s with
  | zero => simpa
  | succ m ih =>
    rw [Function.iterate_succ_apply, Function.iterate_succ_apply,
      draw_of_not_scrubbing speed width height s hs]
    have h2 := ih (pushHistory { s with particles := stepAll speed width height s.particles })
      (by simp [pushHistory, hs])
    refine ⟨?_, h2.2⟩
    rw [h2.1]
    rfl

/-- Contents of a run of `n` `draw` ticks from a freshly initialised
simulation, as long as the buffer never overflows: the particles are the
`n`-fold physics iterate, and the history holds the snapshots of ticks
`0..n` in order, with the cursor on the last one. -/
theorem run_spec (speed width height : ℚ) (ps : List Particle) (n : Nat)
    (hcap : n + 1 ≤ HISTORY_MAX) :
    ((draw speed width height)^[n] (initSim ps)).particles
        = (stepAll speed width height)^[n] ps ∧
      ((draw speed width height)^[n] (initSim ps)).history
        = (List.range (n + 1)).map (fun i => snapshot ((stepAll speed width height)^[i] ps)) ∧
      ((draw speed width height)^[n] (initSim ps)).currentIndex = n ∧
      ((draw speed width height)^[n] (initSim ps)).scrubbing = false ∧
      ((draw speed width height)^[n] (initSim ps)).playing = true := by
  induction n with
  | zero =>
    have h0 : (0 : Nat) < HISTORY_MAX := by
      simp [HISTORY_MAX]
    simp [initSim, pushHistory, appendSnap_of_lt HISTORY_MAX [] _ h0, List.range_succ]
  | succ n ih =>
    have hcap' : n + 1 ≤ HISTORY_MAX := by omega
    obtain ⟨hp, hh, hc, hscr, hpl⟩ := ih hcap'
    rw [Function.iterate_succ_apply', draw_of_not_scrubbing _ _ _ _ hscr]
    have hlen : ((draw speed width height)^[n] (initSim ps)).history.length = n + 1 := by
      rw [hh]
      simp
    have hlt : ((draw speed width height)^[n] (initSim ps)).history.length < HISTORY_MAX := by
      omega
    refine ⟨?_, ?_, ?_, ?_, ?_⟩
    · show stepAll speed width height ((draw speed width height)^[n] (initSim ps)).particles
        = (stepAll speed width height)^[n + 1] ps
      rw [hp, Function.iterate_succ_apply']
    · show appendSnap HISTORY_MAX ((draw speed width height)^[n] (initSim ps)).history
          (snapshot (stepAll speed width height
            ((draw speed width height)^[n] (initSim ps)).particles))
        = (List.range (n + 1 + 1)).map
            (fun i => snapshot ((stepAll speed width height)^[i] ps))
      rw [appendSnap_of_lt _ _ _ hlt, hh, hp,
        show List.range (n + 1 + 1) = List.range (n + 1) ++ [n + 1] from List.range_succ (n + 1),
        List.map_append]
      simp [Function.iterate_succ_apply']
    · show (appendSnap HISTORY_MAX ((draw speed width height)^[n] (initSim ps)).history
          (snapshot (stepAll speed width height
            ((draw speed width height)^[n] (initSim ps)).particles))).length - 1 = n + 1
      rw [appendSnap_of_lt _ _ _ hlt]
      simp [hlen]
    · exact hscr
    · exact hpl

theorem Heap.read_append (h : Heap) (ext : List Particle) (b : Addr) (hb : b < h.size) :
    Heap.read ⟨h.mem ++ ext⟩ b = h.read b := by
  simp only [Heap.read]
  exact List.getD_append _ _ _ _ hb

theorem Heap.readAll_append (h : Heap) (ext : List Particle) (addrs : List Addr)
    (hv : ∀ a ∈ addrs, a < h.size) :
    Heap.readAll ⟨h.mem ++ ext⟩ addrs = h.readAll addrs := by
  unfold Heap.readAll
  exact List.map_congr_left fun b hb => h.read_append ext b (hv b hb)

theorem Heap.readAll_write_ne (h : Heap) (a : Addr) (q : Particle) (addrs : List Addr)
    (hne : ∀ b ∈ addrs, b ≠ a) :
    (h.write a q).readAll addrs = h.readAll addrs := by
  unfold Heap.readAll
  apply List.map_congr_left
  intro b hb
  simp only [Heap.write, Heap.read, List.getD_eq_getElem?_getD]
  rw [List.getElem?_set_ne (hne b hb).symm]

theorem heapExtend_size (h : Heap) (a : Addr) : (heapExtend h a).size = h.size + 1 := by
  simp [heapExtend, Heap.size]

theorem heapExtend_read_lt (h : Heap) (a b : Addr) (hb : b < h.size) :
    (heapExtend h a).read b = h.read b :=
  Heap.read_append h _ b hb

theorem heapExtend_read_new (h : Heap) (a : Addr) :
    (heapExtend h a).read h.size = h.read a := by
  simp only [heapExtend, Heap.read, List.getD_eq_getElem?_getD]
  rw [show h.size = h.mem.length from rfl, List.getElem?_concat_length, Option.getD_some]

theorem copyObjects_size_le (addrs : List Addr) (h : Heap) :
    h.size ≤ (copyObjects addrs h).2.size := by
  induction addrs generalizing h with
  | nil => exact Nat.le_refl _
  | cons a rest ih =>
    simp only [copyObjects]
    refine Nat.le_trans ?_ (ih (heapExtend h a))
    rw [heapExtend_size]
    exact Nat.le_succ _

theorem copyObjects_read_lt (addrs : List Addr) (h : Heap) (b : Addr) (hb : b < h.size) :
    (copyObjects addrs h).2.read b = h.read b := by
  induction addrs generalizing h with
  | nil => rfl
  | cons a rest ih =>
    simp only [copyObjects]
    rw [ih (heapExtend h a) (by rw [heapExtend_size]; exact Nat.lt_succ_of_lt hb)]
    exact heapExtend_read_lt h a b hb

theorem copyObjects_addr_range (addrs : List Addr) (h : Heap) :
    ∀ b ∈ (copyObjects addrs h).1, h.size ≤ b ∧ b < (copyObjects addrs h).2.size := by
  induction addrs generalizing h with
  | nil => simp [copyObjects]
  | cons a rest ih =>
    intro b hb
    simp only [copyObjects, List.mem_cons] at hb ⊢
    rcases hb with hb | hb
    · subst hb
      refine ⟨Nat.le_refl _, Nat.lt_of_lt_of_le ?_ (copyObjects_size_le rest (heapExtend h a))⟩
      rw [heapExtend_size]
      exact Nat.lt_succ_self _
    · have hr := ih (heapExtend h a) b hb
      rw [heapExtend_size] at hr
      exact ⟨Nat.le_of_succ_le hr.1, hr.2⟩

theorem copyObjects_values (addrs : List Addr) (h : Heap)
    (hv : ∀ a ∈ addrs, a < h.size) :
    (copyObjects addrs h).2.readAll (copyObjects addrs h).1 = h.readAll addrs := by
  induction addrs generalizing h with
  | nil => rfl
  | cons a rest ih =>
    have hva : a < h.size := hv a (List.mem_cons_self a rest)
    simp only [copyObjects, Heap.readAll, List.map_cons]
    have hhead : (copyObjects rest (heapExtend h a)).2.read h.size = h.read a := by
      rw [copyObjects_read_lt _ _ _ (by rw [heapExtend_size]; exact Nat.lt_succ_self _)]
      exact heapExtend_read_new h a
    have hv' : ∀ b ∈ rest, b < (heapExtend h a).size := by
      intro b hb
      rw [heapExtend_size]
      exact Nat.lt_succ_of_lt (hv b (List.mem_cons_of_mem a hb))
    have htail : ((copyObjects rest (heapExtend h a)).1.map
        (copyObjects rest (heapExtend h a)).2.read) = rest.map h.read := by
      have h2 := ih (heapExtend h a) hv'
      simp only [Heap.readAll] at h2
      rw [h2]
      exact List.map_congr_left fun b hb =>
        heapExtend_read_lt h a b (hv b (List.mem_cons_of_mem a hb))
    rw [hhead, htail]

theorem handleScrub_spec (t : Int) (s : SimState) (c : Nat) (snap : Snapshot)
    (hcl : (max 0 (min t ((s.history.length : Int) - 1))).toNat = c)
    (hget : s.history[c]? = some snap) :
    handleScrub t s = { s with currentIndex := c, particles := restoreSnapshot snap } := by
  simp only [handleScrub]
  rw [hcl, hget]

/-- C1: Truncate-then-resume determinism. For a recorded run of `n` ticks
(with no eviction yet, so history index `k` is tick `k`), scrubbing to
index `k` and releasing, then advancing `m` further ticks, reproduces
bit-for-bit the particle state of the run that simply continued from tick
`k` (for every `m`, so the whole trajectory coincides). -/
theorem truncate_then_resume_deterministic (speed width height : ℚ) (ps : List Particle)
    (n k m : Nat) (hcap : n + 1 ≤ HISTORY_MAX) (hk : k ≤ n) :
    ((draw speed width height)^[m] (handleScrubEnd (handleScrub (k : Int)
        (handleScrubStart ((draw speed width height)^[n] (initSim ps)))))).particles =
      ((draw speed width height)^[k + m] (initSim ps)).particles := by
  obtain ⟨hp, hh, hc, hscr, hpl⟩ := run_spec speed width height ps n hcap
  have hlen : (handleScrubStart ((draw speed width height)^[n] (initSim ps))).history.length
      = n + 1 := by
    show ((draw speed width height)^[n] (initSim ps)).history.length = n + 1
    rw [hh]
    simp
  have hcl : (max 0 (min (k : Int)
      (((handleScrubStart ((draw speed width height)^[n] (initSim ps))).history.length : Int)
        - 1))).toNat = k := by
    rw [hlen]
    omega
  have hget : (handleScrubStart ((draw speed width height)^[n] (initSim ps))).history[k]?
      = some (snapshot ((stepAll speed width height)^[k] ps)) := by
    show ((draw speed width height)^[n] (initSim ps)).history[k]? = _
    rw [hh]
    rw [List.getElem?_map, List.getElem?_range (show k < n + 1 by omega)]
    rfl
  have hscrub := handleScrub_spec (k : Int) _ k _ hcl hget
  have hparts : (handleScrubEnd (handleScrub (k : Int)
      (handleScrubStart ((draw speed width height)^[n] (initSim ps))))).particles
      = (stepAll speed width height)^[k] ps := by
    rw [show (handleScrubEnd (handleScrub (k : Int)
        (handleScrubStart ((draw speed width height)^[n] (initSim ps))))).particles
      = (handleScrub (k : Int)
        (handleScrubStart ((draw speed width height)^[n] (initSim ps)))).particles from rfl]
    rw [hscrub]
    show restoreSnapshot (snapshot ((stepAll speed width height)^[k] ps)) = _
    rw [restoreSnapshot_eq_self, snapshot_eq_self]
  have hsfalse : (handleScrubEnd (handleScrub (k : Int)
      (handleScrubStart ((draw speed width height)^[n] (initSim ps))))).scrubbing = false := rfl
  rw [(draw_iter_spec speed width height m _ hsfalse).1, hparts,
    (draw_iter_spec speed width height (k + m) (initSim ps) rfl).1]
  show _ = (stepAll speed width height)^[k + m] ((initSim ps).particles)
  rw [show (initSim ps).particles = ps from rfl, Nat.add_comm k m,
    Function.iterate_add_apply]

/-!
### Claim theorems
-/

/-- Witness for C1: a concrete 2-tick run, scrub to index 1, release,
advance 3 more ticks; the trajectory matches the uninterrupted run. -/
theorem truncate_then_resume_deterministic_witness :
    2 + 1 ≤ HISTORY_MAX ∧ 1 ≤ 2 ∧
      ((draw 1 600 400)^[3] (handleScrubEnd (handleScrub ((1 : Nat) : Int)
          (handleScrubStart ((draw 1 600 400)^[2] (initSim [testP 20])))))).particles =
        ((draw 1 600 400)^[1 + 3] (initSim [testP 20])).particles :=
  ⟨by decide, by decide,
    truncate_then_resume_deterministic 1 600 400 [testP 20] 2 1 3 (by decide) (by decide)⟩

/-- C2: Capacity invariant. For every sequence of `pushHistory` calls
starting from an empty buffer (with arbitrary particle states installed
before each call), the history length stays at most `HISTORY_MAX` after
each call, i.e. after every prefix of the sequence. -/
theorem capacity_invariant (pss : List (List Particle)) (s : SimState)
    (h : s.history = []) (n : Nat) :
    (pushRun (pss.take n) s).history.length ≤ HISTORY_MAX := by
  apply pushRun_length_le
  rw [h]
  exact Nat.zero_le _

/-- Witness for C2 at a concrete two-append sequence. -/
theorem capacity_invariant_witness :
    (⟨[], [], 0, false, true⟩ : SimState).history = [] ∧
      (pushRun (([[testP 1], [testP 2]] : List (List Particle)).take 2)
        ⟨[], [], 0, false, true⟩).history.length ≤ HISTORY_MAX :=
  ⟨rfl, capacity_invariant [[testP 1], [testP 2]] ⟨[], [], 0, false, true⟩ rfl 2⟩

/-- C3: Append/drop-oldest postcondition. Below capacity an append goes to
the end; at capacity exactly index 0 is evicted, every other entry shifts
down one index (`tail`), and the new element lands at `capacity - 1`;
after every `pushHistory` the cursor equals `length - 1`; and the
capacity-5 scenario S1..S7 yields [S3,S4,S5,S6,S7]. -/
theorem append_drop_oldest :
    (∀ (cap : Nat) (hist : List Snapshot) (snap : Snapshot), hist.length < cap →
        appendSnap cap hist snap = hist ++ [snap]) ∧
      (∀ (cap : Nat) (hist : List Snapshot) (snap : Snapshot), 1 ≤ cap → hist.length = cap →
        appendSnap cap hist snap = hist.tail ++ [snap] ∧
          (appendSnap cap hist snap).length = cap ∧
          (appendSnap cap hist snap)[cap - 1]? = some snap) ∧
      (∀ s : SimState, (pushHistory s).currentIndex = (pushHistory s).history.length - 1) ∧
      List.foldl (appendSnap 5) []
          [testSnap 1, testSnap 2, testSnap 3, testSnap 4, testSnap 5, testSnap 6, testSnap 7]
        = [testSnap 3, testSnap 4, testSnap 5, testSnap 6, testSnap 7] := by
  refine ⟨appendSnap_of_lt, ?_, fun s => rfl, by decide⟩
  intro cap hist snap h1 hfull
  have he := appendSnap_of_full cap hist snap h1 hfull
  have hlt : hist.tail.length = cap - 1 := by
    rw [List.length_tail, hfull]
  refine ⟨he, ?_, ?_⟩
  · rw [he]
    simp only [List.length_append, List.length_cons, List.length_nil, hlt]
    omega
  · rw [he, show cap - 1 = hist.tail.length from hlt.symm, List.getElem?_concat_length]

/-- Witness for C3: evicting append on a concrete full buffer of capacity 2. -/
theorem append_drop_oldest_witness :
    ([testSnap 8, testSnap 9] : List Snapshot).length = 2 ∧ (1 : Nat) ≤ 2 ∧
      appendSnap 2 [testSnap 8, testSnap 9] (testSnap 10)
        = [testSnap 8, testSnap 9].tail ++ [testSnap 10] :=
  ⟨by decide, by decide,
    (append_drop_oldest.2.1 2 [testSnap 8, testSnap 9] (testSnap 10)
      (by decide) (by decide)).1⟩

/-- C4: `handleScrubEnd` postcondition. From any scrubbing state whose
cursor is in range, the buffer becomes exactly its first `cursor + 1`
entries (length `cursor + 1`), the mode returns to Advancing, `playing`
is forced to `true` regardless of its previous value, and the live
particles are left as already restored. -/
theorem scrubEnd_postcondition (s : SimState) (hs : s.scrubbing = true)
    (hcur : s.currentIndex < s.history.length) :
    (handleScrubEnd s).history = s.history.take (s.currentIndex + 1) ∧
      (handleScrubEnd s).history.length = s.currentIndex + 1 ∧
      (handleScrubEnd s).scrubbing = false ∧
      (handleScrubEnd s).playing = true ∧
      (handleScrubEnd s).particles = s.particles := by
  refine ⟨rfl, ?_, rfl, rfl, rfl⟩
  show (s.history.take (s.currentIndex + 1)).length = s.currentIndex + 1
  rw [List.length_take]
  omega

/-- Witness for C4: a paused scrubbing state with cursor 1 in a 3-entry
buffer (note it was paused and still resumes with `playing = true`). -/
theorem scrubEnd_postcondition_witness :
    s4.scrubbing = true ∧ s4.currentIndex < s4.history.length ∧
      ((handleScrubEnd s4).history = s4.history.take (s4.currentIndex + 1) ∧
        (handleScrubEnd s4).history.length = s4.currentIndex + 1 ∧
        (handleScrubEnd s4).scrubbing = false ∧
        (handleScrubEnd s4).playing = true ∧
        (handleScrubEnd s4).particles = s4.particles) :=
  ⟨rfl, by decide, scrubEnd_postcondition s4 rfl (by decide)⟩

/-- C5: Clamping of out-of-range scrub targets. For a non-empty buffer,
`handleScrub t` behaves identically to `handleScrub` of the clamped index
`max 0 (min t (length - 1))`; out-of-range targets are absorbed, never
surfaced as errors. -/
theorem scrub_clamping (s : SimState) (t : Int) (hL : 1 ≤ s.history.length) :
    handleScrub t s = handleScrub (max 0 (min t ((s.history.length : Int) - 1))) s := by
  have hcl : max 0 (min (max 0 (min t ((s.history.length : Int) - 1)))
      ((s.history.length : Int) - 1)) = max 0 (min t ((s.history.length : Int) - 1)) := by
    omega
  simp only [handleScrub, hcl]

/-- Witness for C5: `scrub (-5)` on a length-2 buffer equals the clamped
scrub. -/
theorem scrub_clamping_witness :
    1 ≤ s5.history.length ∧
      handleScrub (-5) s5 = handleScrub (max 0 (min (-5) ((s5.history.length : Int) - 1))) s5 :=
  ⟨by decide, scrub_clamping s5 (-5) (by decide)⟩

/-- C6: Snapshot non-aliasing. Capturing a snapshot of the live entities
allocates fresh objects, so mutating any live entity afterwards (writing
`q` to a live address `a`) leaves the captured snapshot's stored values
unchanged — they still read back as the originally captured values. -/
theorem snapshot_non_aliasing (live : List Addr) (h : Heap) (a : Addr) (q : Particle)
    (hv : ∀ b ∈ live, b < h.size) (ha : a ∈ live) :
    ((captureHeap live h).2.write a q).readAll (captureHeap live h).1 = h.readAll live ∧
      (captureHeap live h).2.readAll (captureHeap live h).1 = h.readAll live := by
  simp only [captureHeap]
  have hvals := copyObjects_values live h hv
  have hne : ∀ b ∈ (copyObjects live h).1, b ≠ a := by
    intro b hb he
    have h1 := (copyObjects_addr_range live h b hb).1
    have h2 := hv a ha
    rw [he] at h1
    exact absurd h1 (Nat.not_le_of_lt h2)
  exact ⟨by rw [Heap.readAll_write_ne _ _ _ _ hne]; exact hvals, hvals⟩

/-- Witness for C6: mutating live object 0 after capture; the snapshot
still reads back the original two particles. -/
theorem snapshot_non_aliasing_witness :
    (∀ b ∈ [0, 1], b < h6.size) ∧ 0 ∈ [0, 1] ∧
      ((captureHeap [0, 1] h6).2.write 0 ⟨9, 9, 9, 9⟩).readAll (captureHeap [0, 1] h6).1
        = h6.readAll [0, 1] :=
  ⟨by decide, by decide,
    (snapshot_non_aliasing [0, 1] h6 0 ⟨9, 9, 9, 9⟩ (by decide) (by decide)).1⟩

/-- C7: Restore round-trip fidelity. `restore (capture entities)` reads
back exactly the original entities' values (bit-exact), and the restored
collection is fresh: mutating any restored entity never changes the
snapshot it was restored from. -/
theorem restore_round_trip (live : List Addr) (h : Heap) (hv : ∀ b ∈ live, b < h.size) :
    (restoreHeap (captureHeap live h).1 (captureHeap live h).2).2.readAll
        (restoreHeap (captureHeap live h).1 (captureHeap live h).2).1 = h.readAll live ∧
      ∀ a ∈ (restoreHeap (captureHeap live h).1 (captureHeap live h).2).1, ∀ q : Particle,
        ((restoreHeap (captureHeap live h).1 (captureHeap live h).2).2.write a q).readAll
            (captureHeap live h).1
          = (restoreHeap (captureHeap live h).1 (captureHeap live h).2).2.readAll
            (captureHeap live h).1 := by
  simp only [captureHeap, restoreHeap]
  have hv1 : ∀ b ∈ (copyObjects live h).1, b < (copyObjects live h).2.size :=
    fun b hb => (copyObjects_addr_range live h b hb).2
  constructor
  · rw [copyObjects_values _ _ hv1, copyObjects_values _ _ hv]
  · intro a ha q
    apply Heap.readAll_write_ne
    intro b hb he
    have hblt := (copyObjects_addr_range live h b hb).2
    have hage := (copyObjects_addr_range (copyObjects live h).1 (copyObjects live h).2 a ha).1
    rw [he] at hblt
    exact absurd hage (Nat.not_le_of_lt hblt)

/-- Witness for C7: round trip over the two-object heap reads back the
original particle values. -/
theorem restore_round_trip_witness :
    (∀ b ∈ [0, 1], b < h6.size) ∧
      (restoreHeap (captureHeap [0, 1] h6).1 (captureHeap [0, 1] h6).2).2.readAll
          (restoreHeap (captureHeap [0, 1] h6).1 (captureHeap [0, 1] h6).2).1
        = h6.readAll [0, 1] :=
  ⟨by decide, (restore_round_trip [0, 1] h6 (by decide)).1⟩

/-- C8: State-machine ignore rules. In Advancing mode (scrubbing flag off
and scrubber not dragging) a scrub move event fires no transition — the
whole state, cursor, buffer and live entities included, is unchanged; and
`handleScrubStart` received while already Scrubbing is the identity. -/
theorem scrub_ignore_rules (u : UIState) (t : Int) (s : SimState)
    (hdrag : u.isDragging = false) (hmode : u.sim.scrubbing = false)
    (hs : s.scrubbing = true) :
    handleMouseMove t u = u ∧ handleScrubStart s = s := by
  constructor
  · simp [handleMouseMove, hdrag]
  · cases s
    simp_all [handleScrubStart]

/-- Witness for C8 at concrete Advancing and Scrubbing states. -/
theorem scrub_ignore_rules_witness :
    s8a.isDragging = false ∧ s8a.sim.scrubbing = false ∧ s8b.scrubbing = true ∧
      (handleMouseMove 3 s8a = s8a ∧ handleScrubStart s8b = s8b) :=
  ⟨rfl, rfl, rfl, scrub_ignore_rules s8a 3 s8b rfl rfl rfl⟩

/-- C9 counterexample: `handleReset` empties the history without
reseeding, so the empty-buffer state IS reachable after a reset — a
subsequent snapshot fetch finds no entry at index 0. -/
theorem empty_buffer_after_reset_cex :
    (handleReset (initSim [testP 20])).history = [] ∧
      (handleReset (initSim [testP 20])).history[0]? = none :=
  ⟨rfl, rfl⟩

/-- C9 amended: at simulation start (`initParticles`) the buffer is seeded
with exactly one snapshot and the cursor is 0, so a fresh simulation never
fetches from an empty buffer; but `handleReset` clears the buffer without
reseeding, so the empty-buffer state is reachable after a reset (until the
next advancing tick) and is handled by the `handleScrub` existence check
rather than being structurally prevented. -/
theorem buffer_seeded_at_init_but_empty_after_reset (ps : List Particle) (s : SimState) :
    (initSim ps).history = [snapshot ps] ∧ (initSim ps).history.length = 1 ∧
      (initSim ps).currentIndex = 0 ∧
      (handleReset s).history = [] ∧ (handleReset s).particles = [] ∧
      (handleReset s).currentIndex = 0 := by
  have h0 : ([] : List Snapshot).length < HISTORY_MAX := by decide
  have h1 : (initSim ps).history = [snapshot ps] := by
    show appendSnap HISTORY_MAX [] (snapshot ps) = [snapshot ps]
    rw [appendSnap_of_lt _ _ _ h0]
    rfl
  refine ⟨h1, by rw [h1]; rfl, ?_, rfl, rfl, rfl⟩
  show (appendSnap HISTORY_MAX [] (snapshot ps)).length - 1 = 0
  rw [appendSnap_of_lt _ _ _ h0]
  rfl

/-- C10: Scrubbing with an empty history buffer is guarded. The restore
step is behind an existence check on the snapshot at the clamped index, so
`handleScrub` on an empty buffer leaves the live particle collection
completely unchanged (and, being a total function, never crashes). -/
theorem scrub_empty_buffer_safe (t : Int) (s : SimState) (hE : s.history = []) :
    (handleScrub t s).particles = s.particles := by
  simp only [handleScrub, hE, List.getElem?_nil]

/-- Witness for C10: scrubbing to 7 on an empty buffer keeps the particles. -/
theorem scrub_empty_buffer_safe_witness :
    s10.history = [] ∧ (handleScrub 7 s10).particles = s10.particles :=
  ⟨rfl, scrub_empty_buffer_safe 7 s10 rfl⟩
